import Mathlib

/-!
# Verification of the `zh.zaimanhua` author-search core

This file gives a shallow embedding, in Lean 4, of the author-search core of
the `zh.zaimanhua` manga source plugin (the later, strongly-typed
implementation in `src/sources/zh.zaimanhua/src/helpers.rs`, which the
specification declares authoritative), together with proofs and refutations
of the specification claims about it.

Network requests, JSON parsing and the ambient settings store are modelled by
an explicit environment (`Env`): a request that fails at transport level, that
returns malformed JSON, or whose payload carries no `data` is represented by
`none`, exactly matching how the Rust code collapses all three cases with
`if let Ok(..)`/`and_then` chains.  Rust `String` operations that the code
uses (`trim`, `split`, `contains`, `chars`, `to_string`, `parse::<i64>`) are
modelled by executable character-list functions defined below, so that every
definition evaluates by `decide`/`rfl`.
-/

namespace Zaimanhua

/-! ## Character and string primitives (models of the Rust `str` operations) -/

/-- Decimal digit character, used to model Rust's `i64::to_string`. -/
def digitChar (d : Nat) : Char :=
  match d with
  | 0 => '0' | 1 => '1' | 2 => '2' | 3 => '3' | 4 => '4'
  | 5 => '5' | 6 => '6' | 7 => '7' | 8 => '8' | 9 => '9'
  | _ => '*'

/-- Numeric value of a decimal digit character (models `c as u8 - b'0'`). -/
def digitVal (c : Char) : Nat := c.toNat - 48

/-- Fuel-driven decimal rendering of a natural number, most significant digit
first.  `fuel > n` always suffices. -/
def natToDigitsGo : Nat → Nat → List Char → List Char
  | 0, _, acc => acc
  | fuel + 1, n, acc =>
    if n < 10 then digitChar n :: acc
    else natToDigitsGo fuel (n / 10) (digitChar (n % 10) :: acc)

/-- Model of Rust `i64::to_string` (canonical decimal rendering). -/
def intToString : Int → String
  | Int.ofNat m => ⟨natToDigitsGo (m + 1) m []⟩
  | Int.negSucc m => ⟨'-' :: natToDigitsGo (m + 2) (m + 1) []⟩

/-- Value of a digit string, most significant digit first. -/
def digitsToNat (ds : List Char) : Nat :=
  ds.foldl (fun a c => a * 10 + digitVal c) 0

/-- Sign handling of Rust `i64::from_str`: one optional leading `+`/`-`. -/
def parseSign : List Char → Int × List Char
  | [] => (1, [])
  | c :: cs => if c == '+' then (1, cs) else if c == '-' then (-1, cs) else (1, c :: cs)

/-- Digit-run part of Rust `i64::from_str`: one or more ASCII digits and
nothing else; overflow past the `i64` range is a parse error. -/
def parseDigitsVal (sign : Int) (ds : List Char) : Option Int :=
  if ds.isEmpty then none
  else if ds.all (fun c => c.isDigit) then
    let v : Int := sign * (digitsToNat ds : Nat)
    if -(2 ^ 63) ≤ v ∧ v ≤ 2 ^ 63 - 1 then some v else none
  else none

/-- Model of Rust `str::parse::<i64>`: optional sign, then one or more ASCII
digits and nothing else; overflow past the `i64` range is a parse error. -/
def parseI64 (s : String) : Option Int :=
  parseDigitsVal (parseSign s.data).1 (parseSign s.data).2

/-- Does `l` start with `pat`?  (Character-level, models byte-level matching on
well-formed UTF-8, where the two coincide.) -/
def startsList : List Char → List Char → Bool
  | [], _ => true
  | _ :: _, [] => false
  | a :: as, b :: bs => a == b && startsList as bs

/-- Does `s` contain `pat` as a contiguous run? -/
def subList (pat : List Char) : List Char → Bool
  | [] => pat.isEmpty
  | c :: rest => startsList pat (c :: rest) || subList pat rest

/-- Model of Rust `str::contains`: `strContains s pat` holds iff `pat` occurs
as a substring of `s`. -/
def strContains (s pat : String) : Bool := subList pat.data s.data

/-- Model of Rust `str::trim` (whitespace stripped from both ends). -/
def strTrim (s : String) : String :=
  ⟨(((s.data.dropWhile Char.isWhitespace).reverse.dropWhile Char.isWhitespace).reverse)⟩

/-- Model of Rust `str::split(sep)` for a single-character separator: splits on
every occurrence, keeping empty pieces, always producing at least one piece. -/
def splitCharGo (sep : Char) : List Char → List Char → List String
  | [], acc => [⟨acc.reverse⟩]
  | c :: rest, acc =>
    if c == sep then ⟨acc.reverse⟩ :: splitCharGo sep rest []
    else splitCharGo sep rest (c :: acc)

def splitChar (sep : Char) (s : String) : List String := splitCharGo sep s.data []

/-! ## Data model (`models.rs` and the host `Manga` record)

Only the fields the author-search core reads are carried; all of them are
translated field-for-field from `models.rs`. -/

/-- Host output record (the fields of `aidoku::Manga` that this core writes or
reads; `key` is the manga identifier string the `MangaMerger` parses). -/
structure Manga where
  key : String
  title : String := ""
  cover : Option String := none
  authors : Option (List String) := none
deriving Repr, DecidableEq, BEq, Inhabited

/-- `models::SearchItem`. -/
structure SearchItem where
  id : Int
  title : String := ""
  cover : Option String := none
  authors : Option String := none
  status : Option String := none
deriving Repr, DecidableEq, Inhabited

/-- `impl From<SearchItem> for Manga` (status/rating fields are not read by
the author-search core and are omitted). -/
def SearchItem.toManga (item : SearchItem) : Manga :=
  { key := intToString item.id
    title := item.title
    cover := item.cover
    authors := item.authors.map (fun a => [a]) }

/-- `models::FilterItem` (chapter bookkeeping fields are not read here). -/
structure FilterItem where
  id : Int
  name : String := ""
  cover : Option String := none
  authors : Option String := none
  status : Option String := none
deriving Repr, DecidableEq, Inhabited

/-- `impl From<FilterItem> for Manga`. -/
def FilterItem.toManga (item : FilterItem) : Manga :=
  { key := intToString item.id
    title := item.name
    cover := item.cover
    authors := item.authors.map (fun a => [a]) }

/-- `models::AuthorTag`. -/
structure AuthorTag where
  tag_id : Option Int := none
  tag_name : Option String := none
deriving Repr, DecidableEq, Inhabited

/-- `models::MangaDetail` (only the fields the author-search core reads). -/
structure MangaDetail where
  id : Int
  title : Option String := none
  authors : Option (List AuthorTag) := none
deriving Repr, DecidableEq, Inhabited

/-- `models::SearchData`. -/
structure SearchData where
  list : List SearchItem
  total : Option Int := none
deriving Repr, DecidableEq, Inhabited

/-- The wire payload of the `filter/list` endpoint: the remote API reports a
`total` alongside `comicList`.  The later implementation's `models::FilterData`
deserializes only `comicList` (it has no `total` field); the spec's
"maximum reported total" refers to the `total` the wire carries. -/
structure FilterResponse where
  comicList : List FilterItem
  total : Option Int := none
deriving Repr, DecidableEq, Inhabited

/-- `aidoku::MangaPageResult`. -/
structure MangaPageResult where
  entries : List Manga := []
  hasNextPage : Bool := false
deriving Repr, DecidableEq, Inhabited

/-- Modelled from the spec: `SearchItem::matches_author`/`FilterItem::matches_author`
(the Search Matcher, spec §4.1) are called from `helpers.rs` but their
definition is not among the provided sources.  Following the spec's words:
split the candidate's author field on `/` into sub-names and trim each; a
non-empty sub-name matches when it equals the target, contains the target as a
substring, or is contained in the target; empty sub-names never match. -/
def authorFieldMatches (field target : String) : Bool :=
  (splitChar '/' field).any (fun part =>
    let p := strTrim part
    !p.data.isEmpty && (strContains p target || strContains target p))

def SearchItem.matchesAuthor (item : SearchItem) (target : String) : Bool :=
  authorFieldMatches (item.authors.getD "") target

def FilterItem.matchesAuthor (item : FilterItem) (target : String) : Bool :=
  authorFieldMatches (item.authors.getD "") target

/-! ## `extract_author_tags_from_detail` (`helpers.rs:557`)

The Rust function runs one pass over `detail.authors`, keeping per-call
`seen_strict`/`seen_partial` dedup sets.  Note the short-circuit order of
`name == target_author && seen_strict.insert(tid)`: the insertion happens (and
its result is consulted) only when the equality holds, and on a duplicated
strict tag id control falls through to the substring branch. -/

/-- `helpers::MatchResult` (constructors model Rust's `Strict`/`Partial`/`None`). -/
inductive MatchResult where
  | Strict
  | PartialM
  | NoneM
deriving Repr, DecidableEq, Inhabited

/-- `helpers::AuthorMatchResult`. -/
structure AuthorMatchResult where
  strictIds : List Int := []
  partialIds : List Int := []
  matchType : MatchResult := MatchResult.NoneM
deriving Repr, DecidableEq, Inhabited

/-- Loop state of the single pass: the two dedup sets and the two output
accumulators. -/
structure ExtractSt where
  seenStrict : List Int := []
  seenPartial : List Int := []
  strictIds : List Int := []
  partialIds : List Int := []
deriving Repr, DecidableEq, Inhabited

/-- One iteration of the pass over an `AuthorTag` entry. -/
def extractStep (target : String) (st : ExtractSt) (a : AuthorTag) : ExtractSt :=
  match a.tag_name, a.tag_id with
  | some name, some tid =>
    if 0 < tid then
      if (strTrim name).data.isEmpty then st
      else if name == target then
        if st.seenStrict.contains tid then
          -- `seen_strict.insert` returned false: fall through to the partial test
          if strContains name target || strContains target name then
            if st.seenPartial.contains tid then st
            else { st with seenPartial := tid :: st.seenPartial
                           partialIds := st.partialIds ++ [tid] }
          else st
        else { st with seenStrict := tid :: st.seenStrict
                       strictIds := st.strictIds ++ [tid] }
      else if strContains name target || strContains target name then
        if st.seenPartial.contains tid then st
        else { st with seenPartial := tid :: st.seenPartial
                       partialIds := st.partialIds ++ [tid] }
      else st
    else st
  | _, _ => st

/-- `helpers::extract_author_tags_from_detail`. -/
def extractAuthorTagsFromDetail (detail : MangaDetail) (targetAuthor : String) :
    AuthorMatchResult :=
  match detail.authors with
  | none => {}
  | some authors =>
    let st := authors.foldl (extractStep targetAuthor) {}
    { strictIds := st.strictIds
      partialIds := st.partialIds
      matchType :=
        if !st.strictIds.isEmpty then MatchResult.Strict
        else if !st.partialIds.isEmpty then MatchResult.PartialM
        else MatchResult.NoneM }

/-! ## `MangaMerger` (`helpers.rs:495`) -/

/-- `helpers::MangaMerger`: output records with ID-based deduplication.  The
`HashSet<i64>` is modelled as a membership list. -/
structure MangaMerger where
  seenIds : List Int
  results : List Manga
deriving Repr, DecidableEq, Inhabited

def MangaMerger.new : MangaMerger := ⟨[], []⟩

/-- `MangaMerger::try_add`: add under an explicit numeric ID; returns the
updated merger and whether the record was added. -/
def MangaMerger.tryAdd (m : MangaMerger) (id : Int) (manga : Manga) :
    MangaMerger × Bool :=
  if decide (0 < id) && !m.seenIds.contains id then
    ({ seenIds := id :: m.seenIds, results := m.results ++ [manga] }, true)
  else (m, false)

/-- `MangaMerger::add`: parse the record's key as an `i64` and `try_add` it. -/
def MangaMerger.add (m : MangaMerger) (manga : Manga) : MangaMerger × Bool :=
  match parseI64 manga.key with
  | some id => m.tryAdd id manga
  | none => (m, false)

/-- `MangaMerger::extend`. -/
def MangaMerger.extend (m : MangaMerger) (l : List Manga) : MangaMerger :=
  l.foldl (fun acc manga => (acc.add manga).1) m

/-- `MangaMerger::finish`. -/
def MangaMerger.finish (m : MangaMerger) : List Manga := m.results

/-- `MangaMerger::len`. -/
def MangaMerger.len (m : MangaMerger) : Nat := m.results.length

/-- `MangaMerger::is_empty`. -/
def MangaMerger.isEmpty (m : MangaMerger) : Bool := m.results.isEmpty

/-- The public operations a client may perform on a `MangaMerger`
(`add`, `try_add`, `extend`). -/
inductive MergerOp where
  | addOp (manga : Manga)
  | tryAddOp (id : Int) (manga : Manga)
  | extendOp (l : List Manga)
deriving Repr, DecidableEq, Inhabited

def MangaMerger.applyOp (m : MangaMerger) : MergerOp → MangaMerger
  | MergerOp.addOp manga => (m.add manga).1
  | MergerOp.tryAddOp id manga => (m.tryAdd id manga).1
  | MergerOp.extendOp l => m.extend l

/-- Run a sequence of merger operations starting from `MangaMerger::new`. -/
def runOps (ops : List MergerOp) : MangaMerger :=
  ops.foldl MangaMerger.applyOp MangaMerger.new

/-- The keyed insertion attempts an operation stands for: `try_add` is keyed
by the explicitly supplied ID, `add`/`extend` by the parse of each record's
key. -/
def opAttempts : MergerOp → List (Option Int × Manga)
  | MergerOp.addOp manga => [(parseI64 manga.key, manga)]
  | MergerOp.tryAddOp id manga => [(some id, manga)]
  | MergerOp.extendOp l => l.map (fun manga => (parseI64 manga.key, manga))

def attempts (ops : List MergerOp) : List (Option Int × Manga) :=
  (ops.map opAttempts).flatten

/-- Reference model of the merger, written from the spec's words (§4.6
Merger): keep each attempt in insertion order the first time its positive
numeric ID is seen; drop attempts whose ID is non-positive, unparseable, or
already present.  Returns the kept records and the final seen set. -/
def dedupRun : List (Option Int × Manga) → List Int → List Manga × List Int
  | [], seen => ([], seen)
  | (oid, manga) :: rest, seen =>
    match oid with
    | some id =>
      if decide (0 < id) && !seen.contains id then
        let (out, seen') := dedupRun rest (id :: seen)
        (manga :: out, seen')
      else dedupRun rest seen
    | none => dedupRun rest seen

/-! ## The environment

All outward effects of the author-search core are reads: the search endpoint,
the per-manga detail endpoint, the tag `filter/list` endpoint, the hidden
content scanner's page batches, and the `showHiddenContent` setting.  Each is
a field of `Env`; `none` models a transport failure, malformed JSON, a
non-zero `errno`, or an absent `data` payload — all of which the Rust code
treats identically (silent absence). -/

structure Env where
  /-- `settings::show_hidden_content()`. -/
  showHidden : Bool
  /-- `net::send_authed_request::<SearchData>` on the search endpoint for a
  keyword (the core always queries page 1 with `&source=0`). -/
  search : String → Option SearchData
  /-- Detail lookup for a manga id: the `data.data` payload. -/
  detail : Int → Option MangaDetail
  /-- `filter/list` by theme tag id and page (wire payload). -/
  tagFilter : Int → Int → Option FilterResponse
  /-- Modelled from the spec: `net::HiddenContentScanner` (spec §4.5) is
  referenced from `helpers.rs` but not among the provided sources; per the
  spec it produces successive batches of filter items starting at a given
  page.  The batches it would yield from a start page are supplied here. -/
  hiddenBatches : Int → List (List FilterItem)

/-! ## `collect_tags_from_search` (`helpers.rs:296`) -/

/-- The four `&mut` accumulators threaded through the search pipeline. -/
structure CTState where
  seenAuthors : List String := []
  strictIds : List Int := []
  partialIds : List Int := []
  strictManga : List Manga := []
deriving Repr, DecidableEq, Inhabited

/-- Processing of one verified candidate (the body of the response loop in
`collect_tags_from_search`). -/
def collectCandidate (env : Env) (targetAuthor : String)
    (acc : List SearchItem × CTState) (candidate : SearchItem) :
    List SearchItem × CTState :=
  let (items, st) := acc
  let authorKey := candidate.authors.getD ""
  if st.seenAuthors.contains authorKey then
    (items ++ [candidate], st)
  else
    match env.detail candidate.id with
    | some detail =>
      let st := { st with seenAuthors := st.seenAuthors ++ [authorKey] }
      let r := extractAuthorTagsFromDetail detail targetAuthor
      let st := { st with strictIds := st.strictIds ++ r.strictIds
                          partialIds := st.partialIds ++ r.partialIds }
      match r.matchType with
      | MatchResult.Strict =>
        (items ++ [candidate], { st with strictManga := st.strictManga ++ [candidate.toManga] })
      | MatchResult.PartialM => (items ++ [candidate], st)
      | MatchResult.NoneM => (items, st)
    | none => (items, st)

/-- `helpers::collect_tags_from_search` (pure core; the Rust function's every
exit is `Ok`, so its `Result` wrapper is degenerate). -/
def collectTagsCore (env : Env) (keyword targetAuthor : String) (st : CTState) :
    List SearchItem × CTState :=
  match env.search keyword with
  | none => ([], st)
  | some data =>
    let candidates := data.list.filter (fun item => item.matchesAuthor targetAuthor)
    if candidates.isEmpty then ([], st)
    else candidates.foldl (collectCandidate env targetAuthor) ([], st)

/-! ## `try_fuzzy_author_search` (`helpers.rs:376`) -/

/-- One iteration of the fuzzy loop: skip empty terms, terms identical to the
original author, and any term once tag IDs have been found. -/
def fuzzyAttempt (env : Env) (author : String) (core : String)
    (acc : List SearchItem × CTState) : List SearchItem × CTState :=
  let (items, st) := acc
  if core.data.isEmpty || core == author
      || (!st.strictIds.isEmpty || !st.partialIds.isEmpty) then
    acc
  else
    let (keywords, st') := collectTagsCore env core author st
    (items ++ keywords, st')

/-- `helpers::try_fuzzy_author_search` (pure core).  Note: the Rust code sets
`core_name = author` — no decorative-symbol stripping happens in this
version. -/
def tryFuzzyCore (env : Env) (author : String) (st : CTState) :
    List SearchItem × CTState :=
  let coreName := author
  let shortCore :=
    if 4 ≤ coreName.data.length then (⟨coreName.data.take 2⟩ : String) else coreName
  fuzzyAttempt env author shortCore (fuzzyAttempt env author coreName ([], st))

/-! ## `fetch_manga_by_tags` (`helpers.rs:408`) -/

/-- `helpers::fetch_manga_by_tags` (pure core): one `filter/list` request per
tag id, failed or malformed responses contribute nothing, and `total` is the
length of the combined item list (`items.len() as i32`). -/
def fetchMangaByTagsCore (env : Env) (tagIds : List Int) (page : Int) :
    List FilterItem × Int :=
  if tagIds.isEmpty then ([], 0)
  else
    let items :=
      (tagIds.map (fun tid => ((env.tagFilter tid page).map FilterResponse.comicList).getD [])).flatten
    (items, (items.length : Int))

/-- The quantity the spec's §4.6 step 4 describes: the maximum `total`
reported by the remote API across the per-tag responses (written from the
spec's words, for comparison with `fetchMangaByTagsCore`). -/
def maxReportedTotal (env : Env) (tagIds : List Int) (page : Int) : Int :=
  (tagIds.map (fun tid => ((env.tagFilter tid page).bind FilterResponse.total).getD 0)).foldl
    max 0

/-! ## `scan_hidden_content` (`helpers.rs:436`) -/

/-- The `is_match` test of the hidden scan: strict mode compares comma-split,
trimmed author tokens for equality; fuzzy mode uses the Search Matcher. -/
def hiddenItemMatches (targetAuthor : String) (strictMode : Bool)
    (item : FilterItem) : Bool :=
  if strictMode then
    match item.authors with
    | some auth => (splitChar ',' auth).any (fun a => strTrim a == targetAuthor)
    | none => false
  else item.matchesAuthor targetAuthor

/-- Per-item body of the hidden scan: a match not yet in `seen` is recorded in
`seen`, converted, and flags the batch as productive. -/
def scanBatchItem (targetAuthor : String) (strictMode : Bool)
    (acc : List Manga × List Int × Bool) (item : FilterItem) :
    List Manga × List Int × Bool :=
  let (found, seen, flag) := acc
  if hiddenItemMatches targetAuthor strictMode item && !seen.contains item.id then
    (found ++ [item.toManga], item.id :: seen, true)
  else (found, seen, flag)

/-- Batch loop of the hidden scan: stop after the first batch that found
anything. -/
def scanHiddenGo (targetAuthor : String) (strictMode : Bool) :
    List (List FilterItem) → List Manga × List Int → List Manga × List Int
  | [], acc => acc
  | batch :: rest, (found, seen) =>
    let (found', seen', flag) :=
      batch.foldl (scanBatchItem targetAuthor strictMode) (found, seen, false)
    if flag then (found', seen') else scanHiddenGo targetAuthor strictMode rest (found', seen')

/-- `helpers::scan_hidden_content`: consumes the scanner's batches, filtering
against (and inserting into) the merger's `seen_ids` set, which is passed in
by `merger.seen_ids_mut()`. -/
def scanHiddenContent (batches : List (List FilterItem)) (targetAuthor : String)
    (seenIds : List Int) (strictMode : Bool) : List Manga × List Int :=
  scanHiddenGo targetAuthor strictMode batches ([], seenIds)

/-! ## `search_by_author` (`helpers.rs:209`) -/

/-- Outcome of the direct + fuzzy stages of `search_by_author`: the matched
keyword candidates, the verified strict candidates, the tag-ID set chosen for
the tag fetch, whether a direct strict match was found, and how many times
`try_fuzzy_author_search` was invoked. -/
structure StageTwo where
  keywordManga : List SearchItem
  strictManga : List Manga
  finalTagIds : List Int
  exactMatchFound : Bool
  fuzzyCount : Nat
deriving Repr, Inhabited

/-- The direct stage: `collect_tags_from_search(author, author, ..)` on fresh
accumulators. -/
def directStage (env : Env) (author : String) : List SearchItem × CTState :=
  collectTagsCore env author author {}

/-- Direct stage, strict-priority decision and (conditional) fuzzy fallback of
`search_by_author`.  The fuzzy call shares `seen_authors` and `strict_manga`
with the direct stage but starts fresh `fuzzy_strict`/`fuzzy_partial` lists. -/
def stageTwo (env : Env) (author : String) : StageTwo :=
  let keywordManga := (directStage env author).1
  let st1 := (directStage env author).2
  let exactMatchFound := !st1.strictIds.isEmpty
  let directIds := if exactMatchFound then st1.strictIds else st1.partialIds
  if directIds.isEmpty && keywordManga.isEmpty then
    let fz := tryFuzzyCore env author
      { seenAuthors := st1.seenAuthors, strictIds := [], partialIds := []
        strictManga := st1.strictManga }
    { keywordManga := keywordManga ++ fz.1
      strictManga := fz.2.strictManga
      finalTagIds := if !fz.2.strictIds.isEmpty then fz.2.strictIds else fz.2.partialIds
      exactMatchFound := exactMatchFound
      fuzzyCount := 1 }
  else
    { keywordManga := keywordManga
      strictManga := st1.strictManga
      finalTagIds := directIds
      exactMatchFound := exactMatchFound
      fuzzyCount := 0 }

/-- The hidden-content stage of `search_by_author`: when enabled, the scan
receives the fresh merger's `seen_ids` by mutable reference and the found
records are then handed to `merger.extend`. -/
def hiddenScanStage (env : Env) (author : String) (page : Int) (exact : Bool) :
    MangaMerger :=
  if env.showHidden then
    let scanned :=
      scanHiddenContent (env.hiddenBatches ((page - 1) * 5 + 1)) author
        MangaMerger.new.seenIds exact
    MangaMerger.extend { MangaMerger.new with seenIds := scanned.2 } scanned.1
  else MangaMerger.new

/-- The merge of `search_by_author`: hidden stage first, then in strict mode
the tag results chained with the verified strict candidates, otherwise the tag
results chained with every keyword-matched candidate. -/
def mergedStage (env : Env) (author : String) (page : Int) (s : StageTwo) :
    MangaMerger :=
  let tagMs := (fetchMangaByTagsCore env s.finalTagIds page).1.map FilterItem.toManga
  let merger := hiddenScanStage env author page s.exactMatchFound
  if s.exactMatchFound then merger.extend (tagMs ++ s.strictManga)
  else merger.extend (tagMs ++ s.keywordManga.map SearchItem.toManga)

/-- Tag fetch, optional hidden scan, merge and pagination — the tail of
`search_by_author` after the tag-ID set has been fixed. -/
def finishSearch (env : Env) (author : String) (page : Int)
    (s : StageTwo) : MangaPageResult :=
  let tagTotal := (fetchMangaByTagsCore env s.finalTagIds page).2
  let merger := mergedStage env author page s
  if !merger.isEmpty then
    { entries := merger.finish
      hasNextPage :=
        if 0 < tagTotal then decide (100 ≤ tagTotal) else decide (100 ≤ merger.len) }
  else {}

/-- `helpers::search_by_author`, instrumented with the number of invocations
of `try_fuzzy_author_search`.  Every internal stage returns `Ok` on all paths
(failures are swallowed inside), so the `?` operators of the Rust code cannot
propagate an error; the `Except` return type records the host-facing
signature. -/
def searchByAuthorCounted (env : Env) (author : String) (page : Int) :
    Except String MangaPageResult × Nat :=
  if (strTrim author).data.isEmpty then (Except.ok {}, 0)
  else
    let s := stageTwo env author
    (Except.ok (finishSearch env author page s), s.fuzzyCount)

/-- `helpers::search_by_author` as the host sees it. -/
def searchByAuthor (env : Env) (author : String) (page : Int) :
    Except String MangaPageResult :=
  (searchByAuthorCounted env author page).1

/-! ## Decimal rendering / parsing lemmas

`Manga` keys produced by the item conversions are `intToString id`; the
merger parses them back with `parseI64`.  The round-trip facts below are what
the deduplication reasoning needs. -/

lemma digitVal_digitChar {d : Nat} (h : d < 10) : digitVal (digitChar d) = d := by
  interval_cases d <;> decide

lemma digitChar_isDigit {d : Nat} (h : d < 10) : (digitChar d).isDigit = true := by
  interval_cases d <;> decide

lemma natToDigitsGo_fuel :
    ∀ {f g n : Nat} (acc : List Char), n < f → n < g →
      natToDigitsGo f n acc = natToDigitsGo g n acc := by
  intro f
  induction f with
  | zero => intro g n acc hf; omega
  | succ f ih =>
    intro g n acc hf hg
    cases g with
    | zero => omega
    | succ g =>
      by_cases h10 : n < 10
      · simp [natToDigitsGo, h10]
      · have hn : 0 < n := by omega
        have hdiv : n / 10 < n := Nat.div_lt_self hn (by omega)
        simp only [natToDigitsGo, h10, if_false]
        exact ih _ (by omega) (by omega)

lemma natToDigitsGo_append :
    ∀ {f n : Nat} (acc : List Char), n < f →
      natToDigitsGo f n acc = natToDigitsGo f n [] ++ acc := by
  intro f
  induction f with
  | zero => intro n acc hf; omega
  | succ f ih =>
    intro n acc hf
    by_cases h10 : n < 10
    · simp [natToDigitsGo, h10]
    · have hn : 0 < n := by omega
      have hdiv : n / 10 < n := Nat.div_lt_self hn (by omega)
      have hlt : n / 10 < f := by omega
      simp only [natToDigitsGo, h10, if_false]
      rw [ih (digitChar (n % 10) :: acc) hlt, ih [digitChar (n % 10)] hlt]
      simp

lemma digitsToNat_append_singleton (xs : List Char) (c : Char) :
    digitsToNat (xs ++ [c]) = digitsToNat xs * 10 + digitVal c := by
  simp [digitsToNat, List.foldl_append]

lemma natToDigitsGo_spec :
    ∀ {f n : Nat}, n < f →
      (natToDigitsGo f n []).all Char.isDigit = true ∧
      natToDigitsGo f n [] ≠ [] ∧
      digitsToNat (natToDigitsGo f n []) = n := by
  intro f
  induction f with
  | zero => intro n hf; omega
  | succ f ih =>
    intro n hf
    by_cases h10 : n < 10
    · refine ⟨?_, ?_, ?_⟩ <;> simp [natToDigitsGo, h10, digitsToNat]
      · exact digitChar_isDigit h10
      · exact digitVal_digitChar h10
    · have hn : 0 < n := by omega
      have hdiv : n / 10 < n := Nat.div_lt_self hn (by omega)
      have hlt : n / 10 < f := by omega
      obtain ⟨hall, hne, hval⟩ := ih hlt
      have hrw : natToDigitsGo (f + 1) n [] =
          natToDigitsGo f (n / 10) [] ++ [digitChar (n % 10)] := by
        simp only [natToDigitsGo, h10, if_false]
        exact natToDigitsGo_append _ hlt
      rw [hrw]
      refine ⟨?_, by simp, ?_⟩
      · simp only [List.all_append, hall, Bool.true_and, List.all_cons, List.all_nil,
          Bool.and_true]
        exact digitChar_isDigit (Nat.mod_lt _ (by omega))
      · rw [digitsToNat_append_singleton, hval, digitVal_digitChar (Nat.mod_lt _ (by omega))]
        omega

lemma isDigit_not_plus {c : Char} (h : c.isDigit = true) : (c == '+') = false := by
  cases hc : c == '+'
  · rfl
  · exact absurd (eq_of_beq hc ▸ h) (by decide)

lemma isDigit_not_minus {c : Char} (h : c.isDigit = true) : (c == '-') = false := by
  cases hc : c == '-'
  · rfl
  · exact absurd (eq_of_beq hc ▸ h) (by decide)

lemma parseSign_digit {c : Char} (cs : List Char) (hc : c.isDigit = true) :
    parseSign (c :: cs) = (1, c :: cs) := by
  simp [parseSign, isDigit_not_plus hc, isDigit_not_minus hc]

lemma parseDigitsVal_spec {ds : List Char} (sign : Int)
    (hne : ds ≠ []) (hall : ds.all Char.isDigit = true) :
    parseDigitsVal sign ds =
      if -(2 ^ 63) ≤ sign * (digitsToNat ds : Int) ∧
          sign * (digitsToNat ds : Int) ≤ 2 ^ 63 - 1 then
        some (sign * (digitsToNat ds : Int))
      else none := by
  rw [parseDigitsVal]
  simp only [List.isEmpty_eq_true, hne, if_false, hall, if_true]

/-- Parsing the canonical decimal rendering of `i` recovers `i` whenever `i`
fits in an `i64` (and fails otherwise). -/
lemma parseI64_intToString (i : Int) :
    parseI64 (intToString i) =
      if -(2 ^ 63) ≤ i ∧ i ≤ 2 ^ 63 - 1 then some i else none := by
  cases i with
  | ofNat m =>
    obtain ⟨hall, hne, hval⟩ := natToDigitsGo_spec (Nat.lt_succ_self m)
    cases hgo : natToDigitsGo (m + 1) m [] with
    | nil => exact absurd hgo hne
    | cons c cs =>
      rw [hgo] at hall hval
      have hc : c.isDigit = true := by
        simp only [List.all_cons, Bool.and_eq_true] at hall
        exact hall.1
      have hdata : (intToString (Int.ofNat m)).data = c :: cs := by
        show natToDigitsGo (m + 1) m [] = c :: cs
        exact hgo
      rw [parseI64, hdata, parseSign_digit cs hc]
      rw [parseDigitsVal_spec 1 (by simp) hall, hval]
      simp only [one_mul, Int.ofNat_eq_coe]
  | negSucc m =>
    obtain ⟨hall, hne, hval⟩ := natToDigitsGo_spec (Nat.lt_succ_self (m + 1))
    cases hgo : natToDigitsGo (m + 2) (m + 1) [] with
    | nil => exact absurd hgo hne
    | cons c cs =>
      rw [hgo] at hall hval
      have hdata : (intToString (Int.negSucc m)).data = '-' :: c :: cs := by
        show '-' :: natToDigitsGo (m + 2) (m + 1) [] = '-' :: c :: cs
        rw [hgo]
      have hsign : parseSign ('-' :: c :: cs) = (-1, c :: cs) := by
        simp [parseSign]
      rw [parseI64, hdata, hsign]
      rw [parseDigitsVal_spec (-1) (by simp) hall, hval]
      have hneg : (-1 : Int) * ((m + 1 : Nat) : Int) = Int.negSucc m := by
        rw [Int.negSucc_eq]
        push_cast
        ring
      rw [hneg]

/-- If `parseI64` succeeds on a rendered integer, it recovers that integer. -/
lemma parseI64_intToString_inj {i j : Int}
    (h : parseI64 (intToString i) = some j) : j = i := by
  rw [parseI64_intToString] at h
  by_cases hc : -(2 ^ 63) ≤ i ∧ i ≤ 2 ^ 63 - 1
  · rw [if_pos hc] at h
    exact (Option.some_injective _ h).symm
  · rw [if_neg hc] at h
    exact absurd h (by simp)

/-! ## `MangaMerger` lemmas -/

lemma MangaMerger.add_eq_cases (m : MangaMerger) (mg : Manga) :
    m.add mg = match parseI64 mg.key with
      | some id => m.tryAdd id mg
      | none => (m, false) := rfl

lemma MangaMerger.add_eq_some (m : MangaMerger) (mg : Manga) {id : Int}
    (hp : parseI64 mg.key = some id) : m.add mg = m.tryAdd id mg := by
  rw [MangaMerger.add_eq_cases, hp]

lemma MangaMerger.add_eq_none (m : MangaMerger) (mg : Manga)
    (hp : parseI64 mg.key = none) : m.add mg = (m, false) := by
  rw [MangaMerger.add_eq_cases, hp]

lemma MangaMerger.seen_mono_tryAdd (m : MangaMerger) (id : Int) (mg : Manga)
    {x : Int} (hx : x ∈ m.seenIds) : x ∈ ((m.tryAdd id mg).1).seenIds := by
  by_cases hc : (decide (0 < id) && !m.seenIds.contains id) = true
  · simp only [MangaMerger.tryAdd, if_pos hc]
    exact List.mem_cons_of_mem _ hx
  · simp only [MangaMerger.tryAdd, if_neg hc]
    exact hx

lemma MangaMerger.seen_mono_add (m : MangaMerger) (mg : Manga)
    {x : Int} (hx : x ∈ m.seenIds) : x ∈ ((m.add mg).1).seenIds := by
  cases hp : parseI64 mg.key with
  | none => rw [MangaMerger.add_eq_none m mg hp]; exact hx
  | some id => rw [MangaMerger.add_eq_some m mg hp]; exact m.seen_mono_tryAdd id mg hx

lemma MangaMerger.add_covered (m : MangaMerger) (mg : Manga) {id : Int}
    (hp : parseI64 mg.key = some id) (hpos : 0 < id) :
    id ∈ ((m.add mg).1).seenIds := by
  rw [MangaMerger.add_eq_some m mg hp]
  by_cases hc : (decide (0 < id) && !m.seenIds.contains id) = true
  · simp only [MangaMerger.tryAdd, if_pos hc]
    exact List.mem_cons_self _ _
  · simp only [MangaMerger.tryAdd, if_neg hc]
    simp only [Bool.and_eq_true, decide_eq_true_eq, Bool.not_eq_true', not_and] at hc
    simpa using hc hpos

lemma MangaMerger.add_noop (m : MangaMerger) (mg : Manga)
    (h : ∀ id, parseI64 mg.key = some id → 0 < id → id ∈ m.seenIds) :
    m.add mg = (m, false) := by
  cases hp : parseI64 mg.key with
  | none => exact MangaMerger.add_eq_none m mg hp
  | some id =>
    rw [MangaMerger.add_eq_some m mg hp, MangaMerger.tryAdd, if_neg]
    intro hcond
    simp only [Bool.and_eq_true, decide_eq_true_eq, Bool.not_eq_true'] at hcond
    obtain ⟨hpos, hnc⟩ := hcond
    have := h id hp hpos
    simp [this] at hnc

lemma MangaMerger.extend_noop (m : MangaMerger) (l : List Manga)
    (h : ∀ mg ∈ l, ∀ id, parseI64 mg.key = some id → 0 < id → id ∈ m.seenIds) :
    m.extend l = m := by
  induction l generalizing m with
  | nil => rfl
  | cons mg tl ih =>
    show ((m.add mg).1).extend tl = m
    rw [m.add_noop mg (h mg (List.mem_cons_self _ _))]
    exact ih m (fun mg' hmg' => h mg' (List.mem_cons_of_mem _ hmg'))

lemma MangaMerger.extend_seen_mono (m : MangaMerger) (l : List Manga)
    {x : Int} (hx : x ∈ m.seenIds) : x ∈ (m.extend l).seenIds := by
  induction l generalizing m with
  | nil => exact hx
  | cons mg tl ih => exact ih _ (m.seen_mono_add mg hx)

lemma MangaMerger.extend_covers (m : MangaMerger) (l : List Manga) :
    ∀ mg ∈ l, ∀ id, parseI64 mg.key = some id → 0 < id →
      id ∈ (m.extend l).seenIds := by
  induction l generalizing m with
  | nil => intro mg h; exact absurd h (List.not_mem_nil mg)
  | cons hd tl ih =>
    intro mg hmg id hp hpos
    rcases List.mem_cons.mp hmg with rfl | hmem
    · exact MangaMerger.extend_seen_mono _ tl (m.add_covered mg hp hpos)
    · exact ih _ mg hmem id hp hpos

/-- Extending twice with the same list is the same as extending once. -/
lemma MangaMerger.extend_idem (m : MangaMerger) (l : List Manga) :
    (m.extend l).extend l = m.extend l :=
  MangaMerger.extend_noop _ l (m.extend_covers l)

lemma MangaMerger.mem_add_results (m : MangaMerger) (mg : Manga) {x : Manga}
    (hx : x ∈ ((m.add mg).1).results) : x ∈ m.results ∨ x = mg := by
  cases hp : parseI64 mg.key with
  | none =>
    rw [MangaMerger.add_eq_none m mg hp] at hx
    exact Or.inl hx
  | some id =>
    rw [MangaMerger.add_eq_some m mg hp] at hx
    by_cases hc : (decide (0 < id) && !m.seenIds.contains id) = true
    · simp only [MangaMerger.tryAdd, if_pos hc] at hx
      rcases List.mem_append.mp hx with h | h
      · exact Or.inl h
      · exact Or.inr (by simpa using h)
    · simp only [MangaMerger.tryAdd, if_neg hc] at hx
      exact Or.inl hx

lemma MangaMerger.mem_extend_results (m : MangaMerger) (l : List Manga) {x : Manga}
    (hx : x ∈ (m.extend l).results) : x ∈ m.results ∨ x ∈ l := by
  induction l generalizing m with
  | nil => exact Or.inl hx
  | cons mg tl ih =>
    rcases ih _ hx with h | h
    · rcases m.mem_add_results mg h with h' | h'
      · exact Or.inl h'
      · exact Or.inr (h' ▸ List.mem_cons_self _ _)
    · exact Or.inr (List.mem_cons_of_mem _ h)

/-! ## Merger-vs-reference-model characterization -/

lemma dedupRun_cons_none (mg : Manga) (rest : List (Option Int × Manga))
    (seen : List Int) : dedupRun ((none, mg) :: rest) seen = dedupRun rest seen := rfl

lemma dedupRun_cons_some (id : Int) (mg : Manga) (rest : List (Option Int × Manga))
    (seen : List Int) :
    dedupRun ((some id, mg) :: rest) seen =
      if decide (0 < id) && !seen.contains id then
        (mg :: (dedupRun rest (id :: seen)).1, (dedupRun rest (id :: seen)).2)
      else dedupRun rest seen := rfl

lemma dedupRun_append (xs ys : List (Option Int × Manga)) (seen : List Int) :
    dedupRun (xs ++ ys) seen =
      ((dedupRun xs seen).1 ++ (dedupRun ys (dedupRun xs seen).2).1,
        (dedupRun ys (dedupRun xs seen).2).2) := by
  induction xs generalizing seen with
  | nil => simp [dedupRun]
  | cons hd tl ih =>
    obtain ⟨oid, mg⟩ := hd
    cases oid with
    | none =>
      rw [List.cons_append, dedupRun_cons_none, dedupRun_cons_none, ih seen]
    | some id =>
      rw [List.cons_append, dedupRun_cons_some, dedupRun_cons_some]
      by_cases hc : (decide (0 < id) && !seen.contains id) = true
      · rw [if_pos hc, if_pos hc, ih (id :: seen)]
        simp
      · rw [if_neg hc, if_neg hc, ih seen]

lemma MangaMerger.tryAdd_dedup (m : MangaMerger) (id : Int) (mg : Manga) :
    (m.tryAdd id mg).1 =
      ⟨(dedupRun [(some id, mg)] m.seenIds).2,
        m.results ++ (dedupRun [(some id, mg)] m.seenIds).1⟩ := by
  by_cases hc : (decide (0 < id) && !m.seenIds.contains id) = true
  · simp only [MangaMerger.tryAdd, if_pos hc, dedupRun_cons_some, dedupRun]
  · simp only [MangaMerger.tryAdd, if_neg hc, dedupRun_cons_some, dedupRun, if_neg hc]
    simp

lemma MangaMerger.add_dedup (m : MangaMerger) (mg : Manga) :
    (m.add mg).1 =
      ⟨(dedupRun [(parseI64 mg.key, mg)] m.seenIds).2,
        m.results ++ (dedupRun [(parseI64 mg.key, mg)] m.seenIds).1⟩ := by
  cases hp : parseI64 mg.key with
  | none =>
    rw [MangaMerger.add_eq_none m mg hp, dedupRun_cons_none]
    simp [dedupRun]
  | some id =>
    rw [MangaMerger.add_eq_some m mg hp]
    exact m.tryAdd_dedup id mg

lemma MangaMerger.extend_dedup (m : MangaMerger) (l : List Manga) :
    m.extend l =
      ⟨(dedupRun (l.map fun mg => (parseI64 mg.key, mg)) m.seenIds).2,
        m.results ++ (dedupRun (l.map fun mg => (parseI64 mg.key, mg)) m.seenIds).1⟩ := by
  induction l generalizing m with
  | nil => simp [MangaMerger.extend, dedupRun]
  | cons mg tl ih =>
    show ((m.add mg).1).extend tl = _
    rw [ih ((m.add mg).1), m.add_dedup mg]
    have hmap : ((mg :: tl).map fun x => (parseI64 x.key, x)) =
        [(parseI64 mg.key, mg)] ++ tl.map fun x => (parseI64 x.key, x) := by simp
    rw [hmap, dedupRun_append]
    simp [List.append_assoc]

lemma MangaMerger.applyOp_dedup (m : MangaMerger) (op : MergerOp) :
    m.applyOp op =
      ⟨(dedupRun (opAttempts op) m.seenIds).2,
        m.results ++ (dedupRun (opAttempts op) m.seenIds).1⟩ := by
  cases op with
  | addOp mg => exact m.add_dedup mg
  | tryAddOp id mg => exact m.tryAdd_dedup id mg
  | extendOp l => exact m.extend_dedup l

lemma foldl_applyOp_dedup (ops : List MergerOp) (m : MangaMerger) :
    ops.foldl MangaMerger.applyOp m =
      ⟨(dedupRun (attempts ops) m.seenIds).2,
        m.results ++ (dedupRun (attempts ops) m.seenIds).1⟩ := by
  induction ops generalizing m with
  | nil => simp [attempts, dedupRun]
  | cons op tl ih =>
    show tl.foldl MangaMerger.applyOp (m.applyOp op) = _
    rw [ih (m.applyOp op), m.applyOp_dedup op]
    have hatt : attempts (op :: tl) = opAttempts op ++ attempts tl := by
      simp [attempts]
    rw [hatt, dedupRun_append]
    simp [List.append_assoc]

/-- Full characterization of any operation sequence against the reference
dedup model. -/
lemma runOps_dedup (ops : List MergerOp) :
    runOps ops =
      ⟨(dedupRun (attempts ops) []).2, (dedupRun (attempts ops) []).1⟩ := by
  rw [runOps, foldl_applyOp_dedup]
  rfl

/-! ## Hidden-scan lemmas

The scanner records every survivor's ID into the merger's `seen_ids` set (it
receives `merger.seen_ids_mut()`); consequently each returned record's parsed
key is already in the returned seen set. -/

/-- Every ID the record's key parses to lies in `seen`. -/
def coveredBy (seen : List Int) (mg : Manga) : Prop :=
  ∀ id, parseI64 mg.key = some id → id ∈ seen

lemma scanBatchItem_cases (target : String) (strict : Bool) (found : List Manga)
    (seen : List Int) (flag : Bool) (item : FilterItem) :
    scanBatchItem target strict (found, seen, flag) item = (found, seen, flag) ∨
    scanBatchItem target strict (found, seen, flag) item =
      (found ++ [item.toManga], item.id :: seen, true) := by
  rw [scanBatchItem]
  by_cases h :
      (hiddenItemMatches target strict item && !seen.contains item.id) = true
  · rw [if_pos h]
    exact Or.inr rfl
  · rw [if_neg h]
    exact Or.inl rfl

lemma coveredBy_mono {seen seen' : List Int} {mg : Manga}
    (hsub : ∀ x ∈ seen, x ∈ seen') (h : coveredBy seen mg) : coveredBy seen' mg :=
  fun id hp => hsub id (h id hp)

lemma coveredBy_toManga (item : FilterItem) {seen : List Int}
    (h : item.id ∈ seen) : coveredBy seen item.toManga := by
  intro id hp
  have : id = item.id := parseI64_intToString_inj hp
  exact this ▸ h

lemma scanFold_covered (target : String) (strict : Bool) :
    ∀ (items : List FilterItem) (found : List Manga) (seen : List Int) (flag : Bool),
      (∀ x ∈ seen, x ∈ (items.foldl (scanBatchItem target strict) (found, seen, flag)).2.1) ∧
      ((∀ mg ∈ found, coveredBy seen mg) →
        ∀ mg ∈ (items.foldl (scanBatchItem target strict) (found, seen, flag)).1,
          coveredBy (items.foldl (scanBatchItem target strict) (found, seen, flag)).2.1 mg) := by
  intro items
  induction items with
  | nil => intro found seen flag; exact ⟨fun x hx => hx, fun h => h⟩
  | cons item rest ih =>
    intro found seen flag
    rw [List.foldl_cons]
    rcases scanBatchItem_cases target strict found seen flag item with hcase | hcase
    · rw [hcase]
      exact ih found seen flag
    · rw [hcase]
      obtain ⟨ihseen, ihcov⟩ := ih (found ++ [item.toManga]) (item.id :: seen) true
      refine ⟨fun x hx => ihseen x (List.mem_cons_of_mem _ hx), fun hcov => ?_⟩
      refine ihcov ?_
      intro mg hmg
      rcases List.mem_append.mp hmg with h | h
      · exact coveredBy_mono (fun x hx => List.mem_cons_of_mem _ hx) (hcov mg h)
      · have : mg = item.toManga := by simpa using h
        exact this ▸ coveredBy_toManga item (List.mem_cons_self _ _)

lemma scanHiddenGo_cons (target : String) (strict : Bool) (batch : List FilterItem)
    (rest : List (List FilterItem)) (found : List Manga) (seen : List Int) :
    scanHiddenGo target strict (batch :: rest) (found, seen) =
      (if (batch.foldl (scanBatchItem target strict) (found, seen, false)).2.2 then
        ((batch.foldl (scanBatchItem target strict) (found, seen, false)).1,
          (batch.foldl (scanBatchItem target strict) (found, seen, false)).2.1)
      else
        scanHiddenGo target strict rest
          ((batch.foldl (scanBatchItem target strict) (found, seen, false)).1,
            (batch.foldl (scanBatchItem target strict) (found, seen, false)).2.1)) := rfl

lemma scanHiddenGo_covered (target : String) (strict : Bool) :
    ∀ (batches : List (List FilterItem)) (found : List Manga) (seen : List Int),
      (∀ mg ∈ found, coveredBy seen mg) →
      ∀ mg ∈ (scanHiddenGo target strict batches (found, seen)).1,
        coveredBy (scanHiddenGo target strict batches (found, seen)).2 mg := by
  intro batches
  induction batches with
  | nil => intro found seen hcov; exact hcov
  | cons batch rest ih =>
    intro found seen hcov
    rw [scanHiddenGo_cons]
    obtain ⟨hseen, hfold⟩ := scanFold_covered target strict batch found seen false
    by_cases hflag :
        (batch.foldl (scanBatchItem target strict) (found, seen, false)).2.2 = true
    · rw [if_pos hflag]
      exact hfold hcov
    · rw [if_neg hflag]
      exact ih _ _ (hfold hcov)

/-- Every record returned by `scan_hidden_content` has its parsed ID in the
seen set the scan returns (because the scan inserted it there itself). -/
lemma scanHiddenContent_covered (batches : List (List FilterItem)) (target : String)
    (seenIds : List Int) (strict : Bool) :
    ∀ mg ∈ (scanHiddenContent batches target seenIds strict).1,
      coveredBy (scanHiddenContent batches target seenIds strict).2 mg := by
  exact scanHiddenGo_covered target strict batches [] seenIds (by intro mg h; simp at h)

/-! ## Classification lemmas for `extract_author_tags_from_detail` -/

/-- An author-tag entry that the extractor classifies as a strict hit: a
positive tag id, a name that is not whitespace-only, and exact (untrimmed)
equality with the target. -/
def isStrictEntry (target : String) (a : AuthorTag) : Bool :=
  match a.tag_name, a.tag_id with
  | some name, some tid =>
    decide (0 < tid) && !(strTrim name).data.isEmpty && name == target
  | _, _ => false

/-- An author-tag entry satisfying the substring (partial) relation: positive
tag id, a name that is not whitespace-only, and a substring relation in
either direction with the target. -/
def isPartialEntry (target : String) (a : AuthorTag) : Bool :=
  match a.tag_name, a.tag_id with
  | some name, some tid =>
    decide (0 < tid) && !(strTrim name).data.isEmpty &&
      (strContains name target || strContains target name)
  | _, _ => false

lemma startsList_self : ∀ l : List Char, startsList l l = true
  | [] => rfl
  | c :: cs => by simp [startsList, startsList_self cs]

lemma strContains_self (s : String) : strContains s s = true := by
  rw [strContains]
  cases hd : s.data with
  | nil => simp [subList]
  | cons c cs =>
    rw [subList]
    simp [startsList_self]

lemma extractStep_strict_unchanged (t : String) (st : ExtractSt) (a : AuthorTag)
    (h : isStrictEntry t a = false) :
    (extractStep t st a).strictIds = st.strictIds ∧
    (extractStep t st a).seenStrict = st.seenStrict := by
  obtain ⟨otid, oname⟩ := a
  cases oname with
  | none => cases otid <;> exact ⟨rfl, rfl⟩
  | some name =>
    cases otid with
    | none => exact ⟨rfl, rfl⟩
    | some tid =>
      simp only [isStrictEntry, Bool.and_eq_false_iff] at h
      simp only [extractStep]
      split_ifs <;> simp_all

lemma extractStep_strict_push (t : String) (st : ExtractSt) (a : AuthorTag)
    (h : isStrictEntry t a = true) (hseen : st.seenStrict = []) :
    (extractStep t st a).strictIds ≠ [] := by
  obtain ⟨otid, oname⟩ := a
  cases oname with
  | none => simp [isStrictEntry] at h
  | some name =>
    cases otid with
    | none => simp [isStrictEntry] at h
    | some tid =>
      simp only [isStrictEntry, Bool.and_eq_true, decide_eq_true_eq] at h
      obtain ⟨⟨hpos, hblank⟩, hname⟩ := h
      simp only [extractStep]
      rw [if_pos hpos, if_neg (by simpa using hblank), if_pos hname,
        if_neg (by simp [hseen])]
      simp

lemma extractStep_strict_mono (t : String) (st : ExtractSt) (a : AuthorTag)
    (h : st.strictIds ≠ []) : (extractStep t st a).strictIds ≠ [] := by
  obtain ⟨otid, oname⟩ := a
  cases oname with
  | none => cases otid <;> exact h
  | some name =>
    cases otid with
    | none => exact h
    | some tid =>
      simp only [extractStep]
      split_ifs <;> simp_all

lemma extractStep_partial_unchanged (t : String) (st : ExtractSt) (a : AuthorTag)
    (h : isPartialEntry t a = false) :
    (extractStep t st a).partialIds = st.partialIds ∧
    (extractStep t st a).seenPartial = st.seenPartial := by
  obtain ⟨otid, oname⟩ := a
  cases oname with
  | none => cases otid <;> exact ⟨rfl, rfl⟩
  | some name =>
    cases otid with
    | none => exact ⟨rfl, rfl⟩
    | some tid =>
      simp only [isPartialEntry, Bool.and_eq_false_iff] at h
      simp only [extractStep]
      split_ifs <;> simp_all

lemma extractStep_partial_push (t : String) (st : ExtractSt) (a : AuthorTag)
    (hp : isPartialEntry t a = true) (hs : isStrictEntry t a = false)
    (hseenP : st.seenPartial = []) :
    (extractStep t st a).partialIds ≠ [] := by
  obtain ⟨otid, oname⟩ := a
  cases oname with
  | none => simp [isPartialEntry] at hp
  | some name =>
    cases otid with
    | none => simp [isPartialEntry] at hp
    | some tid =>
      simp only [isPartialEntry, Bool.and_eq_true, decide_eq_true_eq] at hp
      obtain ⟨⟨hpos, hblank⟩, hrel⟩ := hp
      have hname : (name == t) = false := by
        simp only [isStrictEntry, Bool.and_eq_true, decide_eq_true_eq,
          Bool.and_eq_false_iff] at hs
        rcases hs with h' | h'
        · rcases h' with h'' | h''
          · simp at h''; omega
          · exact absurd hblank (by simpa using h'')
        · exact h'
      simp only [extractStep]
      rw [if_pos hpos, if_neg (by simpa using hblank), if_neg (by simp [hname]),
        if_pos (by simpa using hrel), if_neg (by simp [hseenP])]
      simp

lemma extractStep_partial_mono (t : String) (st : ExtractSt) (a : AuthorTag)
    (h : st.partialIds ≠ []) : (extractStep t st a).partialIds ≠ [] := by
  obtain ⟨otid, oname⟩ := a
  cases oname with
  | none => cases otid <;> exact h
  | some name =>
    cases otid with
    | none => exact h
    | some tid =>
      simp only [extractStep]
      split_ifs <;> simp_all

lemma extractStep_seenPartial_inv (t : String) (st : ExtractSt) (a : AuthorTag)
    (hinv : st.partialIds = [] → st.seenPartial = []) :
    (extractStep t st a).partialIds = [] → (extractStep t st a).seenPartial = [] := by
  obtain ⟨otid, oname⟩ := a
  cases oname with
  | none => cases otid <;> exact hinv
  | some name =>
    cases otid with
    | none => exact hinv
    | some tid =>
      simp only [extractStep]
      split_ifs <;> simp_all

lemma foldl_extractStep_strict_mono (t : String) (l : List AuthorTag) :
    ∀ st : ExtractSt, st.strictIds ≠ [] →
      (l.foldl (extractStep t) st).strictIds ≠ [] := by
  induction l with
  | nil => intro st h; exact h
  | cons a tl ih =>
    intro st h
    rw [List.foldl_cons]
    exact ih _ (extractStep_strict_mono t st a h)

lemma foldl_extractStep_partial_mono (t : String) (l : List AuthorTag) :
    ∀ st : ExtractSt, st.partialIds ≠ [] →
      (l.foldl (extractStep t) st).partialIds ≠ [] := by
  induction l with
  | nil => intro st h; exact h
  | cons a tl ih =>
    intro st h
    rw [List.foldl_cons]
    exact ih _ (extractStep_partial_mono t st a h)

/-- Strict-side characterization of the extractor's single pass. -/
lemma foldl_extractStep_strict (t : String) (l : List AuthorTag) :
    ∀ st : ExtractSt, st.strictIds = [] → st.seenStrict = [] →
      ((l.foldl (extractStep t) st).strictIds = [] ↔
        l.all (fun a => !isStrictEntry t a) = true) := by
  induction l with
  | nil => intro st hemp _; simpa using hemp
  | cons a tl ih =>
    intro st hemp hseen
    rw [List.foldl_cons, List.all_cons]
    cases hcase : isStrictEntry t a with
    | true =>
      have hne := extractStep_strict_push t st a hcase hseen
      have := foldl_extractStep_strict_mono t tl _ hne
      simp [this]
    | false =>
      obtain ⟨h1, h2⟩ := extractStep_strict_unchanged t st a hcase
      rw [ih _ (h1 ▸ hemp) (h2 ▸ hseen)]
      simp

/-- Partial-side characterization, valid when no entry is a strict hit (then
the strict dedup set stays empty and the duplicated-strict-id fallthrough
cannot fire). -/
lemma foldl_extractStep_partial (t : String) (l : List AuthorTag) :
    ∀ st : ExtractSt, l.all (fun a => !isStrictEntry t a) = true →
      st.partialIds = [] → st.seenPartial = [] →
      ((l.foldl (extractStep t) st).partialIds = [] ↔
        l.all (fun a => !isPartialEntry t a) = true) := by
  induction l with
  | nil => intro st _ hemp _; simpa using hemp
  | cons a tl ih =>
    intro st hall hemp hseenP
    rw [List.all_cons] at hall
    simp only [Bool.and_eq_true, Bool.not_eq_true'] at hall
    obtain ⟨hsa, htl⟩ := hall
    rw [List.foldl_cons, List.all_cons]
    cases hcase : isPartialEntry t a with
    | true =>
      have hne := extractStep_partial_push t st a hcase hsa hseenP
      have := foldl_extractStep_partial_mono t tl _ hne
      simp [this]
    | false =>
      obtain ⟨h1, h2⟩ := extractStep_partial_unchanged t st a hcase
      rw [ih _ (by simpa using htl) (h1 ▸ hemp) (h2 ▸ hseenP)]
      simp

/-! ## Stage lemmas for `search_by_author` -/

lemma hiddenScanStage_eq (env : Env) (author : String) (page : Int) (exact : Bool) :
    hiddenScanStage env author page exact =
      if env.showHidden then
        ⟨(scanHiddenContent (env.hiddenBatches ((page - 1) * 5 + 1)) author [] exact).2, []⟩
      else MangaMerger.new := by
  rw [hiddenScanStage]
  by_cases h : env.showHidden
  · rw [if_pos h, if_pos h]
    have hcov := scanHiddenContent_covered
      (env.hiddenBatches ((page - 1) * 5 + 1)) author [] exact
    exact MangaMerger.extend_noop _ _
      (fun mg hmg id hp _ => hcov mg hmg id hp)
  · rw [if_neg h, if_neg h]

/-- The hidden stage never contributes an output record: the scan has already
inserted every survivor's ID into the merger's seen set, so the subsequent
`extend` drops all of them. -/
lemma hiddenScanStage_results (env : Env) (author : String) (page : Int)
    (exact : Bool) : (hiddenScanStage env author page exact).results = [] := by
  rw [hiddenScanStage_eq]
  by_cases h : env.showHidden
  · rw [if_pos h]
  · rw [if_neg h]; rfl

lemma mergedStage_entries_sub (env : Env) (author : String) (page : Int)
    (s : StageTwo) {x : Manga} (hx : x ∈ (mergedStage env author page s).results) :
    x ∈ (fetchMangaByTagsCore env s.finalTagIds page).1.map FilterItem.toManga ∨
      (if s.exactMatchFound then x ∈ s.strictManga
        else x ∈ s.keywordManga.map SearchItem.toManga) := by
  rw [mergedStage] at hx
  by_cases h : s.exactMatchFound
  · rw [if_pos h] at hx
    rw [if_pos h]
    rcases MangaMerger.mem_extend_results _ _ hx with h' | h'
    · rw [hiddenScanStage_results] at h'
      exact absurd h' (List.not_mem_nil x)
    · exact List.mem_append.mp h'
  · rw [if_neg h] at hx
    rw [if_neg h]
    rcases MangaMerger.mem_extend_results _ _ hx with h' | h'
    · rw [hiddenScanStage_results] at h'
      exact absurd h' (List.not_mem_nil x)
    · exact List.mem_append.mp h'

lemma finishSearch_eq (env : Env) (author : String) (page : Int) (s : StageTwo) :
    finishSearch env author page s =
      if !(mergedStage env author page s).isEmpty then
        { entries := (mergedStage env author page s).finish
          hasNextPage :=
            if 0 < (fetchMangaByTagsCore env s.finalTagIds page).2 then
              decide (100 ≤ (fetchMangaByTagsCore env s.finalTagIds page).2)
            else decide (100 ≤ (mergedStage env author page s).len) }
      else {} := rfl

lemma searchByAuthor_of_trim_empty (env : Env) (author : String) (page : Int)
    (h : (strTrim author).data.isEmpty = true) :
    searchByAuthor env author page = Except.ok {} := by
  rw [searchByAuthor, searchByAuthorCounted, if_pos h]

lemma searchByAuthor_of_trim_nonempty (env : Env) (author : String) (page : Int)
    (h : (strTrim author).data.isEmpty = false) :
    searchByAuthor env author page =
      Except.ok (finishSearch env author page (stageTwo env author)) := by
  rw [searchByAuthor, searchByAuthorCounted, if_neg (by simp [h])]

lemma searchByAuthorCounted_count (env : Env) (author : String) (page : Int)
    (h : (strTrim author).data.isEmpty = false) :
    (searchByAuthorCounted env author page).2 = (stageTwo env author).fuzzyCount := by
  rw [searchByAuthorCounted, if_neg (by simp [h])]

/-- The fuzzy-invocation count of the second stage is 1 exactly on the gate
condition (chosen direct tag-ID set empty and no matched candidates), else 0. -/
lemma stageTwo_fuzzyCount (env : Env) (author : String) :
    (stageTwo env author).fuzzyCount =
      if ((if !(directStage env author).2.strictIds.isEmpty then
              (directStage env author).2.strictIds
            else (directStage env author).2.partialIds).isEmpty
          && (directStage env author).1.isEmpty) = true then 1 else 0 := by
  rw [stageTwo]
  by_cases hgate :
      ((if !(directStage env author).2.strictIds.isEmpty then
          (directStage env author).2.strictIds
        else (directStage env author).2.partialIds).isEmpty
        && (directStage env author).1.isEmpty) = true
  · rw [if_pos hgate, if_pos hgate]
  · rw [if_neg hgate, if_neg hgate]

/-- When the direct stage found a strict tag ID, the second stage keeps the
direct results: strict tag IDs, the verified strict candidates, no fuzzy
invocation. -/
lemma stageTwo_of_strict (env : Env) (author : String)
    (h : (directStage env author).2.strictIds ≠ []) :
    stageTwo env author =
      { keywordManga := (directStage env author).1
        strictManga := (directStage env author).2.strictManga
        finalTagIds := (directStage env author).2.strictIds
        exactMatchFound := true
        fuzzyCount := 0 } := by
  have hne : (directStage env author).2.strictIds.isEmpty = false := by
    simpa [List.isEmpty_iff] using h
  rw [stageTwo]
  rw [if_neg (by simp [hne, List.isEmpty_iff, h])]
  simp [hne]

/-! ## Concrete inputs used by the claim theorems -/

/-- A hidden filter item authored exactly by `"A"`. -/
def itemC1 : FilterItem := { id := 42, name := "Hidden Work", authors := some "A" }

/-- Environment for C1: hidden content enabled, the scan's first batch holds
`itemC1`, all other endpoints fail. -/
def envC1 : Env :=
  { showHidden := true
    search := fun _ => none
    detail := fun _ => none
    tagFilter := fun _ _ => none
    hiddenBatches := fun p => if p == 1 then [[itemC1]] else [] }

/-- A detail whose only author tag carries a trailing space. -/
def detailC2 : MangaDetail :=
  { id := 1, authors := some [{ tag_id := some 7, tag_name := some "A " }] }

/-- A detail whose only author tag name strictly contains the target. -/
def detailC2w : MangaDetail :=
  { id := 2, authors := some [{ tag_id := some 9, tag_name := some "XY" }] }

def itemC3 : FilterItem := { id := 500, name := "W" }

/-- Environment for C3: the sole tag response carries one item but reports a
total of 500. -/
def envC3 : Env :=
  { showHidden := false
    search := fun _ => none
    detail := fun _ => none
    tagFilter := fun tid page =>
      if tid == 7 && page == 1 then some { comicList := [itemC3], total := some 500 }
      else none
    hiddenBatches := fun _ => [] }

def candC4 : SearchItem := { id := 11, title := "T", authors := some "李四" }

def detailC4 : MangaDetail :=
  { id := 11, authors := some [{ tag_id := some 9, tag_name := some "李四" }] }

/-- Environment for C4: searching the stripped core name `"李四"` would find a
candidate whose detail yields tag 9; searching anything else fails. -/
def envC4 : Env :=
  { showHidden := false
    search := fun k => if k == "李四" then some { list := [candC4] } else none
    detail := fun i => if i == 11 then some detailC4 else none
    tagFilter := fun _ _ => none
    hiddenBatches := fun _ => [] }

/-- Environment for the C5 witness: every endpoint fails. -/
def envC5 : Env :=
  { showHidden := false
    search := fun _ => none
    detail := fun _ => none
    tagFilter := fun _ _ => none
    hiddenBatches := fun _ => [] }

def candC6 : SearchItem := { id := 1, title := "T1", authors := some "A" }

def detailC6 : MangaDetail :=
  { id := 1, authors := some [{ tag_id := some 7, tag_name := some "A" }] }

def tagItemC6 : FilterItem := { id := 70, name := "W" }

/-- Environment for the C6 witness: one strict candidate, one tag result. -/
def envC6 : Env :=
  { showHidden := false
    search := fun k => if k == "A" then some { list := [candC6] } else none
    detail := fun i => if i == 1 then some detailC6 else none
    tagFilter := fun tid page =>
      if tid == 7 && page == 1 then some { comicList := [tagItemC6] } else none
    hiddenBatches := fun _ => [] }

/-- A record whose key does not parse as an integer. -/
def mX7 : Manga := { key := "x" }

def candC8 : SearchItem := { id := 1, title := "T", authors := some "A" }

def detailC8 : MangaDetail :=
  { id := 1, authors := some [{ tag_id := some 7, tag_name := some "A" }] }

/-- 99 distinct tag items. -/
def tagItemsC8 : List FilterItem :=
  (List.range 99).map (fun i => { id := (1000 + i : Int), name := "W" })

/-- Environment for the C8 counterexample: the tag fetch returns 99 items and
the strict candidate adds a 100th distinct record. -/
def envC8 : Env :=
  { showHidden := false
    search := fun k => if k == "A" then some { list := [candC8] } else none
    detail := fun i => if i == 1 then some detailC8 else none
    tagFilter := fun tid page =>
      if tid == 7 && page == 1 then some { comicList := tagItemsC8 } else none
    hiddenBatches := fun _ => [] }

def tagItemC8w : FilterItem := { id := 70, name := "W" }

/-- Environment for the C8 witness: one strict candidate, one tag result. -/
def envC8w : Env :=
  { showHidden := false
    search := fun k => if k == "A" then some { list := [candC8] } else none
    detail := fun i => if i == 1 then some detailC8 else none
    tagFilter := fun tid page =>
      if tid == 7 && page == 1 then some { comicList := [tagItemC8w] } else none
    hiddenBatches := fun _ => [] }

/-- The result of the C8 witness search. -/
def rC8w : MangaPageResult := finishSearch envC8w "A" 1 (stageTwo envC8w "A")

/-- A record whose key does not parse as an integer. -/
def mX9 : Manga := { key := "n/a" }

/-- A record whose key parses to the positive ID 5. -/
def mgC9 : Manga := { key := "5" }

/-! ## Claim theorems -/

/-- **C1** (code bug).  The claim says hidden-scan survivors are merged first
into the final result.  In the code, `scan_hidden_content` inserts every
survivor's ID into the merger's `seen_ids` (it is handed
`merger.seen_ids_mut()`), so the following `merger.extend(hidden_manga)` drops
every survivor as a duplicate.  Concretely: the scan finds the hidden manga 42
by author "A" (first conjunct), yet the search returns an empty result (second
conjunct) instead of listing it first. -/
theorem C1_hidden_survivors_dropped :
    scanHiddenContent (envC1.hiddenBatches 1) "A" [] false = ([itemC1.toManga], [42])
      ∧ searchByAuthor envC1 "A" 1 = Except.ok {} :=
  ⟨rfl, rfl⟩

/-- **C2** (counterexample).  As stated, a tag entry whose sub-name equals the
target after trimming whitespace should be a Strict match.  The code compares
without trimming: for the entry named `"A "` against target `"A"` the trimmed
name equals the target, yet the classification is Partial and no strict tag id
is recorded. -/
theorem C2_counterexample :
    strTrim "A " = "A"
      ∧ (extractAuthorTagsFromDetail detailC2 "A").matchType = MatchResult.PartialM
      ∧ (extractAuthorTagsFromDetail detailC2 "A").strictIds = [] := by
  refine ⟨rfl, ?_, ?_⟩ <;> decide

/-- **C2** (amended).  Author-tag classification against a manga detail: the
result is Strict iff some entry has a positive tag id, a name that is not
whitespace-only, and a name exactly equal to the target — without trimming;
when no entry is strict in that sense, the result is Partial iff some entry
(positive tag id, non-whitespace name) contains the target as a substring or
is contained in it.  Whitespace-only names and entries without a positive tag
id never match. -/
theorem C2_amended_classification (detail : MangaDetail) (target : String) :
    ((extractAuthorTagsFromDetail detail target).matchType = MatchResult.Strict
      ↔ (detail.authors.getD []).any (isStrictEntry target) = true)
    ∧ ((detail.authors.getD []).all (fun a => !isStrictEntry target a) = true →
        ((extractAuthorTagsFromDetail detail target).matchType = MatchResult.PartialM
          ↔ (detail.authors.getD []).any (isPartialEntry target) = true)) := by
  cases hdet : detail.authors with
  | none =>
    rw [extractAuthorTagsFromDetail, hdet]
    simp
  | some l =>
    have hext : extractAuthorTagsFromDetail detail target =
        { strictIds := (l.foldl (extractStep target) {}).strictIds
          partialIds := (l.foldl (extractStep target) {}).partialIds
          matchType :=
            if !(l.foldl (extractStep target) {}).strictIds.isEmpty then MatchResult.Strict
            else if !(l.foldl (extractStep target) {}).partialIds.isEmpty then
              MatchResult.PartialM
            else MatchResult.NoneM } := by
      rw [extractAuthorTagsFromDetail, hdet]
    rw [hext]
    have hstrict := foldl_extractStep_strict target l {} rfl rfl
    constructor
    · by_cases hemp : (l.foldl (extractStep target) {}).strictIds = []
      · have hall : l.all (fun a => !isStrictEntry target a) = true := hstrict.mp hemp
        simp only [Option.getD_some, hemp]
        simp only [List.all_eq_true, Bool.not_eq_true'] at hall
        simp only [List.isEmpty_nil, Bool.not_true, Bool.false_eq_true, if_false]
        constructor
        · intro h
          split at h <;> simp_all
        · intro h
          simp only [List.any_eq_true] at h
          obtain ⟨a, ha, hsa⟩ := h
          exact absurd hsa (by simp [hall a ha])
      · have hne : (l.foldl (extractStep target) {}).strictIds.isEmpty = false := by
          simpa [List.isEmpty_iff] using hemp
        simp only [Option.getD_some, hne]
        simp only [Bool.not_false, if_true, true_iff]
        have : ¬ l.all (fun a => !isStrictEntry target a) = true := fun hall =>
          hemp (hstrict.mpr hall)
        simp only [List.all_eq_true, Bool.not_eq_true'] at this
        push_neg at this
        obtain ⟨a, ha, hsa⟩ := this
        simp only [List.any_eq_true]
        exact ⟨a, ha, by simpa using hsa⟩
    · intro hall
      rw [Option.getD_some] at hall ⊢
      have hemp : (l.foldl (extractStep target) {}).strictIds = [] := hstrict.mpr hall
      have hpart := foldl_extractStep_partial target l {} hall rfl rfl
      simp only [hemp, List.isEmpty_nil, Bool.not_true, Bool.false_eq_true, if_false]
      by_cases hpemp : (l.foldl (extractStep target) {}).partialIds = []
      · have hpall := hpart.mp hpemp
        simp only [hpemp, List.isEmpty_nil, Bool.not_true, Bool.false_eq_true, if_false]
        simp only [List.all_eq_true, Bool.not_eq_true'] at hpall
        constructor
        · intro h; simp at h
        · intro h
          simp only [List.any_eq_true] at h
          obtain ⟨a, ha, hpa⟩ := h
          exact absurd hpa (by simp [hpall a ha])
      · have hpne : (l.foldl (extractStep target) {}).partialIds.isEmpty = false := by
          simpa [List.isEmpty_iff] using hpemp
        simp only [hpne, Bool.not_false, if_true, true_iff]
        have : ¬ l.all (fun a => !isPartialEntry target a) = true := fun hp =>
          hpemp (hpart.mpr hp)
        simp only [List.all_eq_true, Bool.not_eq_true'] at this
        push_neg at this
        obtain ⟨a, ha, hpa⟩ := this
        simp only [List.any_eq_true]
        exact ⟨a, ha, by simpa using hpa⟩

/-- Witness for C2 (amended): the detail with one author tag named `"XY"` and
target `"X"` classifies as Partial. -/
theorem C2_amended_witness :
    (extractAuthorTagsFromDetail detailC2w "X").matchType = MatchResult.PartialM :=
  ((C2_amended_classification detailC2w "X").2 (by decide)).mpr (by decide)

/-- **C3** (counterexample).  The claim says `tag_total` equals the maximum
total reported by the remote API across the per-tag responses.  In the code
(`fetch_manga_by_tags`), `total = items.len()`: with one response carrying a
single item but a reported total of 500, the code's `tag_total` is 1 while the
maximum reported total is 500. -/
theorem C3_counterexample :
    (fetchMangaByTagsCore envC3 [7] 1).2 = 1
      ∧ maxReportedTotal envC3 [7] 1 = 500 :=
  ⟨rfl, rfl⟩

/-- **C3** (amended).  After the tag fetch, `tag_total` equals the combined
count of items actually received across the per-tag responses; the totals the
wire reports are not consulted (the deserialized `FilterData` does not even
carry them). -/
theorem C3_amended_total_is_item_count (env : Env) (tagIds : List Int) (page : Int) :
    (fetchMangaByTagsCore env tagIds page).2 =
      ((fetchMangaByTagsCore env tagIds page).1.length : Int) := by
  simp only [fetchMangaByTagsCore]
  split <;> simp

/-- **C4** (code bug).  The claim (and spec §4.3) says `core_name` is the
author string with known decorative leading symbols stripped.  The code sets
`core_name = author` with no stripping, so for a decorated author the
`core == author` skip kills the first fuzzy attempt, and for `"◎李四"`
(3 characters, so `short_core == core_name`) the second as well: no fuzzy
query is ever issued (first conjunct), although querying the stripped core
`"李四"` with the original author as match target would have produced partial
tag id 9 (second conjunct); the full pipeline therefore ends with no tag IDs
while having burned its single fuzzy invocation (last two conjuncts). -/
theorem C4_core_name_not_stripped :
    tryFuzzyCore envC4 "◎李四" {} = ([], {})
      ∧ (collectTagsCore envC4 "李四" "◎李四" {}).2.partialIds = [9]
      ∧ (stageTwo envC4 "◎李四").finalTagIds = []
      ∧ (stageTwo envC4 "◎李四").fuzzyCount = 1 := by
  refine ⟨rfl, ?_, rfl, rfl⟩
  decide

/-- **C5** (confirmed).  `try_fuzzy_author_search` is invoked exactly once
when, after the direct stage, the chosen direct tag-ID set (strict IDs if
any, else partial IDs) is empty and no keyword candidates were matched, and
exactly zero times otherwise. -/
theorem C5_fuzzy_gate (env : Env) (author : String) (page : Int)
    (h : (strTrim author).data.isEmpty = false) :
    (searchByAuthorCounted env author page).2 =
      if ((if !(directStage env author).2.strictIds.isEmpty then
              (directStage env author).2.strictIds
            else (directStage env author).2.partialIds).isEmpty
          && (directStage env author).1.isEmpty) = true then 1 else 0 := by
  rw [searchByAuthorCounted_count env author page h, stageTwo_fuzzyCount]

/-- Witness for C5: with every endpoint failing, the direct stage yields
nothing and the fuzzy engine is invoked exactly once. -/
theorem C5_witness : (searchByAuthorCounted envC5 "A" 1).2 = 1 :=
  (C5_fuzzy_gate envC5 "A" 1 (by decide)).trans (by decide)

/-- **C6** (confirmed).  When the direct stage found a strict tag match, every
entry of the final result comes from the tag search over the strict tag IDs
or from the verified strict candidate list; no merely fuzzily matched keyword
candidate appears. -/
theorem C6_strict_mode_composition (env : Env) (author : String) (page : Int)
    (hstrict : (directStage env author).2.strictIds ≠ []) :
    ∀ r, searchByAuthor env author page = Except.ok r →
      ∀ m ∈ r.entries,
        m ∈ (fetchMangaByTagsCore env (directStage env author).2.strictIds page).1.map
              FilterItem.toManga
          ∨ m ∈ (directStage env author).2.strictManga := by
  intro r hr m hm
  by_cases htrim : (strTrim author).data.isEmpty = true
  · rw [searchByAuthor_of_trim_empty env author page htrim] at hr
    injection hr with hr'
    rw [← hr'] at hm
    simp at hm
  · have hne : (strTrim author).data.isEmpty = false := by
      cases h' : (strTrim author).data.isEmpty
      · rfl
      · exact absurd h' htrim
    rw [searchByAuthor_of_trim_nonempty env author page hne] at hr
    injection hr with hr'
    rw [← hr'] at hm
    rw [finishSearch_eq] at hm
    by_cases hemp : (!(mergedStage env author page (stageTwo env author)).isEmpty) = true
    · rw [if_pos hemp] at hm
      have hmem : m ∈ (mergedStage env author page (stageTwo env author)).results := hm
      have hsub := mergedStage_entries_sub env author page (stageTwo env author) hmem
      rw [stageTwo_of_strict env author hstrict] at hsub
      simpa using hsub
    · rw [if_neg hemp] at hm
      simp at hm

/-- Witness for C6: in an environment with one strict candidate and one tag
result, the first result entry is covered by the tag-or-strict disjunction. -/
theorem C6_witness :
    tagItemC6.toManga ∈
        (fetchMangaByTagsCore envC6 (directStage envC6 "A").2.strictIds 1).1.map
          FilterItem.toManga
      ∨ tagItemC6.toManga ∈ (directStage envC6 "A").2.strictManga :=
  C6_strict_mode_composition envC6 "A" 1 (by decide)
    (finishSearch envC6 "A" 1 (stageTwo envC6 "A"))
    (searchByAuthor_of_trim_nonempty envC6 "A" 1 (by decide))
    tagItemC6.toManga (by
      have heq : (finishSearch envC6 "A" 1 (stageTwo envC6 "A")).entries =
          [tagItemC6.toManga, candC6.toManga] := by decide
      rw [heq]
      exact List.mem_cons_self _ _)

/-- **C7** (counterexample).  The claim asserts that, over arbitrary
`add`/`try_add`/`extend` sequences, `finish` excludes every record whose key
does not parse as a positive integer.  `try_add` is keyed by its explicit ID
argument and never parses the record's key: a single `try_add(5, mX7)` with
`mX7.key = "x"` lands `mX7` in the output. -/
theorem C7_counterexample :
    (runOps [MergerOp.tryAddOp 5 mX7]).finish = [mX7] ∧ parseI64 mX7.key = none :=
  ⟨rfl, rfl⟩

/-- **C7** (amended).  For every sequence of `add`/`try_add`/`extend`
operations, `finish` equals the reference dedup model run over the sequence's
keyed insertion attempts: each attempt is keyed by the explicitly supplied ID
for `try_add` and by the parse of the record's key for `add`/`extend`; kept
are, in insertion order, exactly the first attempts of each positive ID —
which yields pairwise-distinct positive IDs, first-inserted-wins, insertion
order, and the exclusion of `add`/`extend` records with unparseable keys. -/
theorem C7_amended_merger_contract (ops : List MergerOp) :
    (runOps ops).finish = (dedupRun (attempts ops) []).1 := by
  rw [MangaMerger.finish, runOps_dedup]

set_option maxRecDepth 4000 in
/-- **C8** (counterexample).  The claim's pagination cascade — true if
`tag_total > 0 ∧ tag_total ≥ 100`, else true if the merged count is ≥ 100,
else false — disagrees with the code when `0 < tag_total < 100` yet the merge
holds at least 100 records: with 99 tag items plus one strict candidate, the
merged count is 100 (so the claim demands `has_next_page = true`) but the
code returns `has_next_page = false`. -/
theorem C8_counterexample :
    (Except.toOption (searchByAuthor envC8 "A" 1)).map
        (fun r => (r.entries.length, r.hasNextPage)) = some (100, false)
      ∧ (fetchMangaByTagsCore envC8 (stageTwo envC8 "A").finalTagIds 1).2 = 99 := by
  refine ⟨?_, ?_⟩ <;> decide

/-- **C8** (amended).  When the search returns a non-empty page,
`has_next_page` is `tag_total ≥ 100` whenever `tag_total > 0`, and is
`merged count ≥ 100` only when `tag_total = 0`; a zero-result merge returns
the empty page with `has_next_page = false` (the empty case is the `r.entries
≠ []` complement). -/
theorem C8_amended_pagination (env : Env) (author : String) (page : Int)
    (r : MangaPageResult) (hr : searchByAuthor env author page = Except.ok r)
    (hne : r.entries ≠ []) :
    r.hasNextPage =
      if 0 < (fetchMangaByTagsCore env (stageTwo env author).finalTagIds page).2 then
        decide (100 ≤ (fetchMangaByTagsCore env (stageTwo env author).finalTagIds page).2)
      else decide (100 ≤ r.entries.length) := by
  by_cases htrim : (strTrim author).data.isEmpty = true
  · rw [searchByAuthor_of_trim_empty env author page htrim] at hr
    injection hr with hr'
    rw [← hr'] at hne
    simp at hne
  · have htne : (strTrim author).data.isEmpty = false := by
      cases h' : (strTrim author).data.isEmpty
      · rfl
      · exact absurd h' htrim
    rw [searchByAuthor_of_trim_nonempty env author page htne] at hr
    injection hr with hr'
    rw [finishSearch_eq] at hr'
    by_cases hemp : (!(mergedStage env author page (stageTwo env author)).isEmpty) = true
    · rw [if_pos hemp] at hr'
      rw [← hr']
      have hlen : ((mergedStage env author page (stageTwo env author)).finish).length =
          (mergedStage env author page (stageTwo env author)).len := rfl
      simp only [hlen]
    · rw [if_neg hemp] at hr'
      rw [← hr'] at hne
      simp at hne

/-- Witness for C8 (amended): one tag item and one strict candidate give a
2-entry page with `tag_total = 1 > 0` and `1 < 100`, hence no next page. -/
theorem C8_witness : rC8w.hasNextPage = false :=
  (C8_amended_pagination envC8w "A" 1 rC8w
      (searchByAuthor_of_trim_nonempty envC8w "A" 1 (by decide))
      (by decide)).trans
    (by decide)

/-- **C9** (counterexample).  The claim demands exactly one output copy of any
record fed twice.  A record whose key does not parse as a positive integer is
dropped entirely: feeding `mX9` (key `"n/a"`) twice yields zero copies. -/
theorem C9_counterexample :
    (MangaMerger.new.extend [mX9, mX9]).finish = [] ∧ parseI64 mX9.key = none :=
  ⟨rfl, rfl⟩

/-- **C9** (amended).  `extend` is idempotent: re-extending any merger with
the same list changes nothing; and a record whose key parses as a positive ID,
fed twice to a fresh merger, yields exactly one output entry bearing that
ID. -/
theorem C9_amended_extend_idempotent :
    (∀ (m : MangaMerger) (l : List Manga), (m.extend l).extend l = m.extend l)
    ∧ (∀ (mg : Manga) (id : Int), parseI64 mg.key = some id → 0 < id →
        ((MangaMerger.new.extend [mg, mg]).finish.countP
          (fun x => parseI64 x.key == some id)) = 1) := by
  constructor
  · exact fun m l => MangaMerger.extend_idem m l
  · intro mg id hp hpos
    have h1 : MangaMerger.new.add mg = (⟨[id], [mg]⟩, true) := by
      rw [MangaMerger.add_eq_some _ _ hp, MangaMerger.tryAdd,
        if_pos (by simp [hpos, MangaMerger.new])]
      rfl
    have h2 : (⟨[id], [mg]⟩ : MangaMerger).add mg = (⟨[id], [mg]⟩, false) := by
      rw [MangaMerger.add_eq_some _ _ hp, MangaMerger.tryAdd, if_neg (by simp)]
    have hext : MangaMerger.new.extend [mg, mg] = ⟨[id], [mg]⟩ := by
      show (((MangaMerger.new.add mg).1).add mg).1 = _
      rw [h1]
      show ((⟨[id], [mg]⟩ : MangaMerger).add mg).1 = _
      rw [h2]
    rw [hext]
    show List.countP _ [mg] = 1
    simp [List.countP_cons, hp]

/-- Witness for C9 (amended): record with key `"5"`, fed twice. -/
theorem C9_witness :
    ((MangaMerger.new.extend [mgC9, mgC9]).extend [mgC9, mgC9] =
        MangaMerger.new.extend [mgC9, mgC9])
    ∧ ((MangaMerger.new.extend [mgC9, mgC9]).finish.countP
        (fun x => parseI64 x.key == some 5) = 1) :=
  ⟨C9_amended_extend_idempotent.1 MangaMerger.new [mgC9, mgC9],
    C9_amended_extend_idempotent.2 mgC9 5 (by decide) (by decide)⟩

/-- **C10** (confirmed).  For every environment (covering every combination of
transport, parse and semantic failures of the underlying stages), every author
string and every page, `search_by_author` returns `Ok`: no fatal error reaches
the host. -/
theorem C10_search_always_ok (env : Env) (author : String) (page : Int) :
    ∃ r, searchByAuthor env author page = Except.ok r := by
  by_cases h : (strTrim author).data.isEmpty = true
  · exact ⟨{}, searchByAuthor_of_trim_empty env author page h⟩
  · have hne : (strTrim author).data.isEmpty = false := by
      cases h' : (strTrim author).data.isEmpty
      · rfl
      · exact absurd h' h
    exact ⟨_, searchByAuthor_of_trim_nonempty env author page hne⟩

end Zaimanhua
